import Mathlib

/-!
Shallow embedding of the opytimizer metaheuristic core, covering the
Simulated Annealing optimizer (src/opytimizer/optimizers/science/sa.py),
the Cross-Entropy Method optimizer (src/opytimizer/optimizers/misc/cem.py)
and the generic run lifecycle shared by both.

Modelling conventions:
- a position is a rational matrix `List (List ℚ)` indexed by
  (decision variable, dimension);
- random draws (Gaussian noise matrices, uniform scalars) are explicit
  inputs of the update functions, indexed by agent and by iteration;
- the external numeric library routines `np.exp` and `np.sqrt` are
  abstracted as function parameters `expf`, `sqrtf : ℚ → ℚ`: none of the
  statements below depends on a property of the exponential beyond where
  and with which argument it is called;
- division by zero in the Metropolis exponent is modelled as `Option.none`
  (Python raises ZeroDivisionError for scalar floats, NumPy yields inf/nan);
- Python property setters that raise `e.TypeError` / `e.ValueError` are
  modelled as `Except`-valued functions on a small universe `PyVal` of
  Python argument values.
-/

namespace Opytimizer

/-- A position matrix: one row per decision variable, one column per
dimension of that variable. -/
abbrev Position := List (List ℚ)

/-- Embeds opytimizer's `Agent` as far as the SA/CEM update rules read it:
a position matrix and a scalar fitness. -/
structure Agent where
  position : Position
  fit : ℚ
deriving DecidableEq, Repr

/-- Clamp one value into the closed interval `[lo, hi]` (numpy clip on one
element). -/
def clipVal (lo hi x : ℚ) : ℚ := max lo (min x hi)

/-- Modelled from the spec: `Agent.clip_by_bound` / `Space.clip_by_bound`
are not under src/; section 4.1 specifies that clipping clamps every
position element of variable `j` into `[lower_bound j, upper_bound j]`. -/
def clipPos (lb ub : List ℚ) (p : Position) : Position :=
  List.zipWith (fun b row => row.map (clipVal b.1 b.2)) (lb.zip ub) p

/-- Elementwise sum of two position matrices (`a.position += noise`). -/
def addPos (p q : Position) : Position :=
  List.zipWith (List.zipWith (· + ·)) p q

/-- The universe of Python values a setter can receive: an int, a float, or
some non-numeric object. -/
inductive PyVal
  | int (n : ℤ)
  | float (q : ℚ)
  | nonnum
deriving DecidableEq, Repr

/-- The two exception classes raised by the parameter setters
(`opytimizer.utils.exception.TypeError` / `ValueError`). -/
inductive PyErr
  | typeError
  | valueError
deriving DecidableEq, Repr

/-- `isinstance(v, (float, int))`: the numeric value of `v`, if numeric. -/
def numVal : PyVal → Option ℚ
  | .int n => some (n : ℚ)
  | .float q => some q
  | .nonnum => none

namespace SA

/-- `SA.T` setter: rejects non-numerics with `TypeError`, negatives with
`ValueError`, and stores the value otherwise (sa.py lines 63-71). -/
def setT (v : PyVal) : Except PyErr ℚ :=
  match numVal v with
  | none => .error .typeError
  | some q => if q < 0 then .error .valueError else .ok q

/-- `SA.beta` setter: same checks as `SA.T` (sa.py lines 80-88). -/
def setBeta (v : PyVal) : Except PyErr ℚ :=
  match numVal v with
  | none => .error .typeError
  | some q => if q < 0 then .error .valueError else .ok q

/-- The argument `-(a.fit - agent.fit) / self.T` of the Metropolis
exponential; `none` when the temperature divisor is zero, where the Python
expression is a zero-division error or an inf/nan value. -/
def metropolisExp (candFit curFit T : ℚ) : Option ℚ :=
  if T = 0 then none else some (-(candFit - curFit) / T)

/-- One agent's step of `SA._update` (sa.py lines 98-129): build a
candidate from a deep copy by adding Gaussian `noise`, clip it, evaluate
it, draw the uniform `r1`, then accept if strictly better, else accept
exactly when `r1 < expf (metropolis exponent)`, else keep the agent. -/
def stepAgent (expf : ℚ → ℚ) (f : Position → ℚ) (lb ub : List ℚ) (T : ℚ)
    (noise : Position) (r1 : ℚ) (agent : Agent) : Option Agent :=
  let pos := clipPos lb ub (addPos agent.position noise)
  let aFit := f pos
  if aFit < agent.fit then some ⟨pos, aFit⟩
  else
    match metropolisExp aFit agent.fit T with
    | none => none
    | some x => if r1 < expf x then some ⟨pos, aFit⟩ else some agent

/-- The agent loop of `SA._update`: each agent in order is stepped with its
own noise matrix `noise i` and its own fresh uniform draw `r1 i`. -/
def updateAgents (expf : ℚ → ℚ) (f : Position → ℚ) (lb ub : List ℚ)
    (T : ℚ) (noise : ℕ → Position) (r1 : ℕ → ℚ) :
    List Agent → ℕ → Option (List Agent)
  | [], _ => some []
  | a :: rest, i => do
      let a2 ← stepAgent expf f lb ub T (noise i) (r1 i) a
      let rest2 ← updateAgents expf f lb ub T noise r1 rest (i + 1)
      pure (a2 :: rest2)

/-- A full `SA._update` pass: step every agent at temperature `T`, then
decay the temperature once, `T ← T * beta` (sa.py lines 131-132). -/
def update (expf : ℚ → ℚ) (f : Position → ℚ) (lb ub : List ℚ)
    (noise : ℕ → Position) (r1 : ℕ → ℚ) (beta : ℚ)
    (st : List Agent × ℚ) : Option (List Agent × ℚ) :=
  (updateAgents expf f lb ub st.2 noise r1 st.1 0).map (fun l => (l, st.2 * beta))

/-- `k` successive `SA._update` passes, with fresh per-iteration noise and
uniform streams `noise t` and `r1 t`. -/
def iteratePasses (expf : ℚ → ℚ) (f : Position → ℚ) (lb ub : List ℚ)
    (beta : ℚ) (noise : ℕ → ℕ → Position) (r1 : ℕ → ℕ → ℚ) :
    ℕ → List Agent × ℚ → Option (List Agent × ℚ)
  | 0, st => some st
  | k + 1, st => do
      let st2 ← update expf f lb ub (noise k) (r1 k) beta st
      iteratePasses expf f lb ub beta noise r1 k st2

end SA

namespace CEM

/-- `CEM.n_updates` setter: rejects every non-`int` with `TypeError` and
non-positive integers with `ValueError` (cem.py lines 59-66). -/
def set_n_updates (v : PyVal) : Except PyErr ℤ :=
  match v with
  | .int n => if n ≤ 0 then .error .valueError else .ok n
  | _ => .error .typeError

/-- `CEM.alpha` setter: rejects non-numerics with `TypeError`, negatives
with `ValueError` (cem.py lines 76-83). -/
def setAlpha (v : PyVal) : Except PyErr ℚ :=
  match numVal v with
  | none => .error .typeError
  | some q => if q < 0 then .error .valueError else .ok q

/-- `agent.position[j] = draw_j` for `j` ranging over `zip(mean, std)`:
the first rows of the position are overwritten by the draws, any rows
beyond them are kept. -/
def overwriteRows (draws : Position) (p : Position) : Position :=
  draws ++ p.drop draws.length

/-- One agent's body of `CEM._create_new_samples` (cem.py lines 96-107):
overwrite each decision variable's row with its Gaussian draws, clip the
agent, then evaluate its fitness. -/
def resampleAgent (f : Position → ℚ) (lb ub : List ℚ) (draws : Position)
    (a : Agent) : Agent :=
  let p := clipPos lb ub (overwriteRows draws a.position)
  ⟨p, f p⟩

/-- `CEM._create_new_samples` over the whole population: agent `i` is
resampled with its own draw matrix `drawss i`, trimmed to the
`zip(mean, std)` variables. -/
def resampled (f : Position → ℚ) (lb ub : List ℚ) (drawss : ℕ → Position)
    (mean std : List ℚ) (agents : List Agent) : List Agent :=
  agents.enum.map (fun ia =>
    resampleAgent f lb ub ((drawss ia.1).take (min mean.length std.length)) ia.2)

/-- `agents.sort(key=lambda x: x.fit)`: the stable ascending sort of the
population by fitness. -/
def sortByFit (l : List Agent) : List Agent :=
  List.insertionSort (fun x y => x.fit ≤ y.fit) l

/-- `agents[:self.n_updates]`: the elite block, the first `nUpdates` agents
of the (sorted) population; a Python slice truncates silently when
`nUpdates` exceeds the population size. -/
def eliteBlock (nUpdates : ℕ) (l : List Agent) : List Agent :=
  l.take nUpdates

/-- `update_position[:, j, :]`: row `j` (decision variable `j`) of each
listed agent. -/
def varRows (ags : List Agent) (j : ℕ) : Position :=
  ags.map (fun a => a.position.getD j [])

/-- `np.mean` of a 2-D array: the average of all its entries. -/
def npMean (m : Position) : ℚ :=
  (m.map List.sum).sum / ((m.map List.length).sum : ℚ)

/-- `CEM._update_mean` (cem.py lines 109-124):
`alpha * mean + (1 - alpha) * np.mean(updates)`. -/
def update_mean (alpha : ℚ) (updates : Position) (mean : ℚ) : ℚ :=
  alpha * mean + (1 - alpha) * npMean updates

/-- `CEM._update_std` (cem.py lines 126-142):
`alpha * std + (1 - alpha) * np.sqrt(np.mean((updates - mean) ** 2))`,
with `np.sqrt` abstracted as `sqrtf`. -/
def update_std (alpha : ℚ) (sqrtf : ℚ → ℚ) (updates : Position)
    (mean std : ℚ) : ℚ :=
  alpha * std + (1 - alpha) *
    sqrtf (npMean (updates.map (fun row => row.map (fun x => (x - mean) ^ 2))))

/-- `CEM._update` (cem.py lines 144-168): resample all agents, sort the
population ascending by fitness, take the first `nUpdates` agents as the
elite block, then for each decision variable `j` update `mean[j]` first and
`std[j]` second, the latter around the just-updated `mean[j]`. Returns the
population (as left by the in-place sort) and the new mean and std arrays. -/
def update (f : Position → ℚ) (lb ub : List ℚ) (drawss : ℕ → Position)
    (nUpdates : ℕ) (alpha : ℚ) (sqrtf : ℚ → ℚ) (agents : List Agent)
    (mean std : List ℚ) : List Agent × List ℚ × List ℚ :=
  let srt := sortByFit (resampled f lb ub drawss mean std agents)
  let el := eliteBlock nUpdates srt
  (srt,
   (List.range mean.length).map (fun j =>
     update_mean alpha (varRows el j) (mean.getD j 0)),
   (List.range mean.length).map (fun j =>
     update_std alpha sqrtf (varRows el j)
       (update_mean alpha (varRows el j) (mean.getD j 0)) (std.getD j 0)))

end CEM

namespace Optimizer

/-- One iteration body shared by `SA.run` and `CEM.run` (sa.py lines
155-165, cem.py lines 201-211): strategy update, then
`space.clip_by_bound()`, then re-evaluation. -/
def lifecycleIter {σ : Type} (upd clip eval : σ → σ) (s : σ) : σ :=
  eval (clip (upd s))

/-- The `for t in range(space.n_iterations)` loop: each iteration runs
`lifecycleIter` and then `history.dump(...)` appends one snapshot; the
records are returned in call order together with the final space state. -/
def runLoop {σ α : Type} (upd clip eval : σ → σ) (snap : σ → α) :
    ℕ → σ → σ × List α
  | 0, s => (s, [])
  | n + 1, s =>
      let s1 := lifecycleIter upd clip eval s
      let r := runLoop upd clip eval snap n s1
      (r.1, snap s1 :: r.2)

/-- The shared body of `SA.run` and `CEM.run` (sa.py lines 134-179, cem.py
lines 170-225), with the collaborators `space.clip_by_bound`,
`Optimizer._evaluate` and the `history.dump` snapshot abstracted as state
functions: an initial evaluation, then a fresh history grown by exactly
`n` iterations of update / clip / evaluate / dump. CEM's mean/std
initialization is part of the initial state `s0` and its update closure. -/
def run {σ α : Type} (upd clip eval : σ → σ) (snap : σ → α) (n : ℕ)
    (s0 : σ) : σ × List α :=
  runLoop upd clip eval snap n (eval s0)

end Optimizer

/-! ## Theorems -/

/-- C1: in the SA update, each agent's candidate is its position plus the
Gaussian noise, clipped and evaluated; a strictly better (lower-fitness)
candidate is accepted regardless of the uniform draw, and otherwise the
candidate is accepted exactly when the fresh uniform draw `r1` is below
`exp (-(candidate fitness - current fitness) / T)`. -/
theorem C1_sa_metropolis_acceptance (expf : ℚ → ℚ) (f : Position → ℚ)
    (lb ub : List ℚ) (T : ℚ) (noise : Position) (r1 : ℚ) (agent : Agent)
    (hT : T ≠ 0) :
    SA.stepAgent expf f lb ub T noise r1 agent =
      some
        (if f (clipPos lb ub (addPos agent.position noise)) < agent.fit then
          ⟨clipPos lb ub (addPos agent.position noise),
            f (clipPos lb ub (addPos agent.position noise))⟩
        else if r1 < expf
            (-(f (clipPos lb ub (addPos agent.position noise)) - agent.fit) / T) then
          ⟨clipPos lb ub (addPos agent.position noise),
            f (clipPos lb ub (addPos agent.position noise))⟩
        else agent) := by
  unfold SA.stepAgent SA.metropolisExp
  simp only [if_neg hT]
  split
  · rfl
  · split <;> rfl

/-- Witness for C1 at a concrete input: one agent with fitness 3, constant
objective 5, temperature 1, uniform draw 1; the worse candidate is rejected
because the draw 1 is not below the exponential's value 0. -/
theorem C1_sa_metropolis_acceptance_witness :
    SA.stepAgent (fun _ => 0) (fun _ => 5) [] [] 1 [] 1 ⟨[], 3⟩ = some ⟨[], 3⟩ :=
  (C1_sa_metropolis_acceptance (fun _ => 0) (fun _ => 5) [] [] 1 [] 1 ⟨[], 3⟩
    (by decide)).trans (by decide)

/-- C9: when the SA candidate is rejected (not strictly better, and the
uniform draw fails the Metropolis test), the agent after the step is the
unchanged incumbent: its position and fitness are exactly the values from
before the step, untouched by the candidate's mutation and clipping. -/
theorem C9_sa_reject_preserves_agent (expf : ℚ → ℚ) (f : Position → ℚ)
    (lb ub : List ℚ) (T : ℚ) (noise : Position) (r1 : ℚ) (agent : Agent)
    (hT : T ≠ 0)
    (hfit : ¬ f (clipPos lb ub (addPos agent.position noise)) < agent.fit)
    (hr : ¬ r1 < expf
      (-(f (clipPos lb ub (addPos agent.position noise)) - agent.fit) / T)) :
    SA.stepAgent expf f lb ub T noise r1 agent = some agent := by
  unfold SA.stepAgent SA.metropolisExp
  simp only [if_neg hT, if_neg hfit, if_neg hr]

/-- Witness for C9 at a concrete input: agent with fitness 4, constant
objective 6, temperature 2, uniform draw 7; the step returns the incumbent
agent unchanged. -/
theorem C9_sa_reject_preserves_agent_witness :
    SA.stepAgent (fun _ => 0) (fun _ => 6) [] [] 2 [] 7 ⟨[], 4⟩ = some ⟨[], 4⟩ :=
  C9_sa_reject_preserves_agent (fun _ => 0) (fun _ => 6) [] [] 2 [] 7 ⟨[], 4⟩
    (by decide) (by decide) (by decide)

/-- C10: the SA temperature setter accepts `T = 0` (only negatives are
rejected), and with `T = 0` an agent step whose candidate is not strictly
better reaches the Metropolis exponent with a zero divisor, so the step is
undefined: the update is not total under validated parameters. -/
theorem C10_sa_zero_temperature_partial :
    SA.setT (.int 0) = .ok 0 ∧
    SA.stepAgent (fun _ => 0) (fun _ => 5) [] [] 0 [] 0 ⟨[], 3⟩ = none := by
  exact ⟨rfl, by decide⟩

/-- C5: the SA
`T` and `beta` setters raise a type error on non-numerics and a value
error on negatives; the CEM `n_updates` setter raises a type error on any
non-integer (floats included) and a value error on 0 or negative integers;
the CEM `alpha` setter raises a type error on non-numerics and a value
error on negatives. -/
theorem C5_setter_validation :
    (∀ v, numVal v = none →
      SA.setT v = .error .typeError ∧ SA.setBeta v = .error .typeError ∧
        CEM.setAlpha v = .error .typeError) ∧
    (∀ q : ℚ, q < 0 →
      SA.setT (.float q) = .error .valueError ∧
        SA.setBeta (.float q) = .error .valueError ∧
        CEM.setAlpha (.float q) = .error .valueError) ∧
    (∀ q : ℚ, CEM.set_n_updates (.float q) = .error .typeError) ∧
    (∀ n : ℤ, n ≤ 0 → CEM.set_n_updates (.int n) = .error .valueError) := by
  refine ⟨fun v hv => ?_, fun q hq => ?_, fun q => rfl, fun n hn => ?_⟩
  · simp [SA.setT, SA.setBeta, CEM.setAlpha, hv]
  · simp [SA.setT, SA.setBeta, CEM.setAlpha, numVal, hq]
  · simp [CEM.set_n_updates, hn]

/-- Witness for C5 at concrete inputs: a non-numeric value, the float
`-1`, the float `5/2` and the integer `0`. -/
theorem C5_setter_validation_witness :
    SA.setT .nonnum = .error .typeError ∧
    SA.setBeta (.float (-1)) = .error .valueError ∧
    CEM.set_n_updates (.float (5 / 2)) = .error .typeError ∧
    CEM.set_n_updates (.int 0) = .error .valueError :=
  ⟨(C5_setter_validation.1 .nonnum (by decide)).1,
   (C5_setter_validation.2.1 (-1) (by decide)).2.1,
   C5_setter_validation.2.2.1 (5 / 2),
   C5_setter_validation.2.2.2 0 (by decide)⟩

/-- At a nonzero temperature every SA agent step succeeds: the Metropolis
exponent is defined and one of the three outcomes is produced. -/
theorem SA.stepAgent_isSome (expf : ℚ → ℚ) (f : Position → ℚ)
    (lb ub : List ℚ) (T : ℚ) (noise : Position) (r1 : ℚ) (agent : Agent)
    (hT : T ≠ 0) :
    ∃ a2, SA.stepAgent expf f lb ub T noise r1 agent = some a2 := by
  unfold SA.stepAgent SA.metropolisExp
  simp only [if_neg hT]
  split
  · exact ⟨_, rfl⟩
  · split <;> exact ⟨_, rfl⟩

/-- At a nonzero temperature the SA agent loop succeeds on every
population. -/
theorem SA.updateAgents_total (expf : ℚ → ℚ) (f : Position → ℚ)
    (lb ub : List ℚ) (T : ℚ) (noise : ℕ → Position) (r1 : ℕ → ℚ)
    (hT : T ≠ 0) :
    ∀ (agents : List Agent) (i : ℕ),
      ∃ l, SA.updateAgents expf f lb ub T noise r1 agents i = some l := by
  intro agents
  induction agents with
  | nil => exact fun i => ⟨[], rfl⟩
  | cons a rest ih =>
      intro i
      obtain ⟨a2, ha⟩ := SA.stepAgent_isSome expf f lb ub T (noise i) (r1 i) a hT
      obtain ⟨l, hl⟩ := ih (i + 1)
      exact ⟨a2 :: l, by simp [SA.updateAgents, ha, hl]⟩

/-- With positive temperature and decay, `k` SA passes always succeed and
carry the temperature `T0 * beta ^ k`, whatever the noise and uniform
streams do. -/
theorem SA.iteratePasses_snd (expf : ℚ → ℚ) (f : Position → ℚ)
    (lb ub : List ℚ) (beta : ℚ) (noise : ℕ → ℕ → Position)
    (r1 : ℕ → ℕ → ℚ) :
    ∀ (k : ℕ) (agents : List Agent) (T0 : ℚ), 0 < T0 → 0 < beta →
      ∃ ags, SA.iteratePasses expf f lb ub beta noise r1 k (agents, T0) =
        some (ags, T0 * beta ^ k) := by
  intro k
  induction k with
  | zero => exact fun agents T0 hT hb => ⟨agents, by simp [SA.iteratePasses]⟩
  | succ k ih =>
      intro agents T0 hT hb
      obtain ⟨l, hl⟩ := SA.updateAgents_total expf f lb ub T0 (noise k) (r1 k)
        (ne_of_gt hT) agents 0
      obtain ⟨ags, h2⟩ := ih l (T0 * beta) (mul_pos hT hb) hb
      refine ⟨ags, ?_⟩
      have hupd : SA.update expf f lb ub (noise k) (r1 k) beta (agents, T0) =
          some (l, T0 * beta) := by simp [SA.update, hl]
      have hstep : SA.iteratePasses expf f lb ub beta noise r1 (k + 1) (agents, T0) =
          SA.iteratePasses expf f lb ub beta noise r1 k (l, T0 * beta) := by
        simp [SA.iteratePasses, hupd]
      have harith : T0 * beta * beta ^ k = T0 * beta ^ (k + 1) := by ring
      rw [hstep, h2, harith]

/-- C4: the SA temperature is decayed by `beta` exactly once per update
pass, after all agents are processed, so after `k` passes from `T0 > 0`
with `beta > 0` the carried temperature is exactly `T0 * beta ^ k`,
whichever candidates the noise and uniform streams made it accept or
reject. -/
theorem C4_sa_geometric_cooling (expf : ℚ → ℚ) (f : Position → ℚ)
    (lb ub : List ℚ) (beta : ℚ) (noise : ℕ → ℕ → Position)
    (r1 : ℕ → ℕ → ℚ) (k : ℕ) (agents : List Agent) (T0 : ℚ)
    (hT : 0 < T0) (hb : 0 < beta) :
    (SA.iteratePasses expf f lb ub beta noise r1 k (agents, T0)).map Prod.snd =
      some (T0 * beta ^ k) := by
  obtain ⟨ags, h⟩ :=
    SA.iteratePasses_snd expf f lb ub beta noise r1 k agents T0 hT hb
  rw [h]
  rfl

/-- Witness for C4 at a concrete input: an empty population, `T0 = 1`,
`beta = 2`, one pass; the carried temperature is `2`. -/
theorem C4_sa_geometric_cooling_witness :
    (SA.iteratePasses (fun _ => 0) (fun _ => 0) [] [] 2 (fun _ _ => [])
        (fun _ _ => 0) 1 ([], 1)).map Prod.snd = some 2 :=
  (C4_sa_geometric_cooling (fun _ => 0) (fun _ => 0) [] [] 2 (fun _ _ => [])
    (fun _ _ => 0) 1 [] 1 (by decide) (by decide)).trans
      (by with_unfolding_all decide)

/-- The loop of the run pipeline records exactly one snapshot per
iteration, in iteration order, and leaves the state after exactly `n`
update / clip / evaluate steps. -/
theorem Optimizer.runLoop_spec {σ α : Type} (upd clip eval : σ → σ)
    (snap : σ → α) :
    ∀ (n : ℕ) (s : σ),
      (Optimizer.runLoop upd clip eval snap n s).2.length = n ∧
      (∀ (d : α) (k : ℕ), k < n →
        (Optimizer.runLoop upd clip eval snap n s).2.getD k d =
          snap ((Optimizer.lifecycleIter upd clip eval)^[k + 1] s)) ∧
      (Optimizer.runLoop upd clip eval snap n s).1 =
        (Optimizer.lifecycleIter upd clip eval)^[n] s := by
  intro n
  induction n with
  | zero =>
      exact fun s => ⟨rfl, fun d k hk => absurd hk (Nat.not_lt_zero k), rfl⟩
  | succ n ih =>
      intro s
      obtain ⟨h1, h2, h3⟩ := ih (Optimizer.lifecycleIter upd clip eval s)
      refine ⟨by simp [Optimizer.runLoop, h1], ?_, ?_⟩
      · intro d k hk
        cases k with
        | zero => simp [Optimizer.runLoop]
        | succ k =>
            have hk2 := h2 d k (Nat.lt_of_succ_lt_succ hk)
            simp only [Optimizer.runLoop, List.getD_cons_succ]
            rw [Function.iterate_succ_apply]
            exact hk2
      · simp only [Optimizer.runLoop]
        rw [h3, ← Function.iterate_succ_apply]

/-- C3: the run pipeline performs an initial evaluation, then exactly
`n_iterations` iterations with no early stopping, each in strict order
strategy update, clip, re-evaluation, history dump; the history receives
exactly one record per iteration (so `n_iterations` dump calls) and is
returned. Record `k` is the snapshot taken after `k + 1` iterations on the
initially evaluated state, and the final state is the `n`-fold iteration. -/
theorem C3_run_lifecycle {σ α : Type} (upd clip eval : σ → σ) (snap : σ → α)
    (n : ℕ) (s0 : σ) :
    (Optimizer.run upd clip eval snap n s0).2.length = n ∧
    (∀ (d : α) (k : ℕ), k < n →
      (Optimizer.run upd clip eval snap n s0).2.getD k d =
        snap ((Optimizer.lifecycleIter upd clip eval)^[k + 1] (eval s0))) ∧
    (Optimizer.run upd clip eval snap n s0).1 =
      (Optimizer.lifecycleIter upd clip eval)^[n] (eval s0) :=
  Optimizer.runLoop_spec upd clip eval snap n (eval s0)

/-- Witness for C3 at a concrete input: counting state, two iterations;
the second history record is the state after two iterations. -/
theorem C3_run_lifecycle_witness :
    (Optimizer.run (fun s => s + 1) id id id 2 0).2.getD 1 0 = 2 :=
  ((C3_run_lifecycle (fun s => s + 1) id id id 2 0).2.1 0 1 (by decide)).trans
    (by decide)

/-- Reading index `j < n` out of a table built over `List.range n` yields
the tabulated function at `j`. -/
theorem getD_range_map {n j : ℕ} (g : ℕ → ℚ) (hj : j < n) :
    ((List.range n).map g).getD j 0 = g j := by
  rw [List.getD_eq_getElem _ _ (by simpa using hj), List.getElem_map,
    List.getElem_range]

/-- C2: in the CEM update, after resampling and sorting ascending by
fitness, for each decision variable `j` the mean is updated first as
`alpha * mean[j] + (1 - alpha) * average(elite rows for j)`, and the
standard deviation second as `alpha * std[j] + (1 - alpha) *
sqrt(average((elite rows for j - new mean[j])^2))`, where the mean in the
std formula is the just-updated output mean at `j`, not the previous one. -/
theorem C2_cem_mean_then_std (f : Position → ℚ) (lb ub : List ℚ)
    (drawss : ℕ → Position) (nUpdates : ℕ) (alpha : ℚ) (sqrtf : ℚ → ℚ)
    (agents : List Agent) (mean std : List ℚ) (j : ℕ)
    (hj : j < mean.length) :
    (CEM.update f lb ub drawss nUpdates alpha sqrtf agents mean std).2.1.getD j 0 =
      alpha * mean.getD j 0 + (1 - alpha) *
        CEM.npMean (CEM.varRows (CEM.eliteBlock nUpdates
          (CEM.sortByFit (CEM.resampled f lb ub drawss mean std agents))) j) ∧
    (CEM.update f lb ub drawss nUpdates alpha sqrtf agents mean std).2.2.getD j 0 =
      alpha * std.getD j 0 + (1 - alpha) *
        sqrtf (CEM.npMean ((CEM.varRows (CEM.eliteBlock nUpdates
            (CEM.sortByFit (CEM.resampled f lb ub drawss mean std agents))) j).map
          (fun row => row.map (fun x =>
            (x - (CEM.update f lb ub drawss nUpdates alpha sqrtf agents
              mean std).2.1.getD j 0) ^ 2)))) := by
  have hm : (CEM.update f lb ub drawss nUpdates alpha sqrtf agents mean std).2.1.getD j 0 =
      CEM.update_mean alpha (CEM.varRows (CEM.eliteBlock nUpdates
        (CEM.sortByFit (CEM.resampled f lb ub drawss mean std agents))) j)
        (mean.getD j 0) := by
    show ((List.range mean.length).map _).getD j 0 = _
    rw [getD_range_map _ hj]
  constructor
  · exact hm.trans rfl
  · rw [hm]
    show ((List.range mean.length).map _).getD j 0 = _
    rw [getD_range_map _ hj]
    rfl

/-- Witness for C2 at a concrete input: no elites, `alpha = 5`, prior mean
`2` and std `3`; the updated mean is `10` and the updated std is `15`. -/
theorem C2_cem_mean_then_std_witness :
    (CEM.update (fun _ => 0) [] [] (fun _ => []) 0 5 id [] [2] [3]).2.1.getD 0 0 = 10 ∧
    (CEM.update (fun _ => 0) [] [] (fun _ => []) 0 5 id [] [2] [3]).2.2.getD 0 0 = 15 := by
  have h := C2_cem_mean_then_std (fun _ => 0) [] [] (fun _ => []) 0 5 id [] [2] [3]
    0 (by decide)
  exact ⟨h.1.trans (by with_unfolding_all decide),
    h.2.trans (by with_unfolding_all decide)⟩

/-- The flat average of a position block is invariant under permuting its
rows. -/
theorem npMean_perm {l1 l2 : Position} (h : l1.Perm l2) :
    CEM.npMean l1 = CEM.npMean l2 := by
  unfold CEM.npMean
  rw [(h.map List.sum).sum_eq, (h.map List.length).sum_eq]

/-- Resampling preserves the population size. -/
theorem CEM.resampled_length (f : Position → ℚ) (lb ub : List ℚ)
    (drawss : ℕ → Position) (mean std : List ℚ) (agents : List Agent) :
    (CEM.resampled f lb ub drawss mean std agents).length = agents.length := by
  unfold CEM.resampled
  rw [List.length_map, List.enum_length]

/-- With `alpha = 0` and the elite count equal to the population size, the
CEM mean update for variable `j` is the flat average of all resampled
agents' rows for `j`, in their original (pre-sort) order. -/
theorem cem_mean_alpha0 (f : Position → ℚ) (lb ub : List ℚ)
    (drawss : ℕ → Position) (sqrtf : ℚ → ℚ) (agents : List Agent)
    (mean std : List ℚ) (j : ℕ) (hj : j < mean.length) :
    (CEM.update f lb ub drawss agents.length 0 sqrtf agents mean std).2.1.getD j 0 =
      CEM.npMean (CEM.varRows (CEM.resampled f lb ub drawss mean std agents) j) := by
  have hm : (CEM.update f lb ub drawss agents.length 0 sqrtf agents mean std).2.1.getD j 0 =
      CEM.update_mean 0 (CEM.varRows (CEM.eliteBlock agents.length
        (CEM.sortByFit (CEM.resampled f lb ub drawss mean std agents))) j)
        (mean.getD j 0) := by
    show ((List.range mean.length).map _).getD j 0 = _
    rw [getD_range_map _ hj]
  have hlen : (CEM.sortByFit (CEM.resampled f lb ub drawss mean std agents)).length =
      agents.length := by
    rw [CEM.sortByFit, List.length_insertionSort, CEM.resampled_length]
  have hel : CEM.eliteBlock agents.length
      (CEM.sortByFit (CEM.resampled f lb ub drawss mean std agents)) =
      CEM.sortByFit (CEM.resampled f lb ub drawss mean std agents) := by
    unfold CEM.eliteBlock
    rw [← hlen, List.take_length]
  have hperm : (CEM.sortByFit (CEM.resampled f lb ub drawss mean std agents)).Perm
      (CEM.resampled f lb ub drawss mean std agents) :=
    List.perm_insertionSort _ _
  have hnp : CEM.npMean (CEM.varRows
      (CEM.sortByFit (CEM.resampled f lb ub drawss mean std agents)) j) =
      CEM.npMean (CEM.varRows (CEM.resampled f lb ub drawss mean std agents) j) :=
    npMean_perm (hperm.map _)
  rw [hm, hel, CEM.update_mean, hnp]
  ring

/-- C7: if the elite count equals the population size and `alpha = 0`,
the new CEM mean for every decision variable is exactly the arithmetic
(flat) average of all agents' resampled positions for that variable in
that iteration, with no memory of the prior mean: any prior mean array of
the same length produces the same new mean. -/
theorem C7_cem_full_elite_zero_alpha (f : Position → ℚ) (lb ub : List ℚ)
    (drawss : ℕ → Position) (sqrtf : ℚ → ℚ) (agents : List Agent)
    (mean std : List ℚ) (j : ℕ) (hj : j < mean.length) :
    (CEM.update f lb ub drawss agents.length 0 sqrtf agents mean std).2.1.getD j 0 =
      CEM.npMean (CEM.varRows (CEM.resampled f lb ub drawss mean std agents) j) ∧
    (∀ mean2 : List ℚ, mean2.length = mean.length →
      (CEM.update f lb ub drawss agents.length 0 sqrtf agents mean2 std).2.1.getD j 0 =
      (CEM.update f lb ub drawss agents.length 0 sqrtf agents mean std).2.1.getD j 0) := by
  refine ⟨cem_mean_alpha0 f lb ub drawss sqrtf agents mean std j hj, ?_⟩
  intro mean2 hlen2
  have hres : CEM.resampled f lb ub drawss mean2 std agents =
      CEM.resampled f lb ub drawss mean std agents := by
    unfold CEM.resampled
    rw [hlen2]
  have h2 := cem_mean_alpha0 f lb ub drawss sqrtf agents mean2 std j
    (by rw [hlen2]; exact hj)
  rw [h2, hres, cem_mean_alpha0 f lb ub drawss sqrtf agents mean std j hj]

/-- Witness for C7 at a concrete input: two agents, draws `1` and `2`
within bounds `[-10, 10]`; the new mean is `3/2` both for prior mean `4`
and for prior mean `9`. -/
theorem C7_cem_full_elite_zero_alpha_witness :
    (CEM.update (fun p => (p.map List.sum).sum) [-10] [10]
        (fun i => [[(i : ℚ) + 1]]) 2 0 id
        [⟨[[0]], 0⟩, ⟨[[0]], 7⟩] [4] [1]).2.1.getD 0 0 = 3 / 2 ∧
    (CEM.update (fun p => (p.map List.sum).sum) [-10] [10]
        (fun i => [[(i : ℚ) + 1]]) 2 0 id
        [⟨[[0]], 0⟩, ⟨[[0]], 7⟩] [9] [1]).2.1.getD 0 0 = 3 / 2 := by
  have h := C7_cem_full_elite_zero_alpha (fun p => (p.map List.sum).sum)
    [-10] [10] (fun i => [[(i : ℚ) + 1]]) id
    [⟨[[0]], 0⟩, ⟨[[0]], 7⟩] [4] [1] 0 (by decide)
  refine ⟨h.1.trans (by with_unfolding_all decide), ?_⟩
  exact (h.2 [9] (by decide)).trans (h.1.trans (by with_unfolding_all decide))

/-- Counterexample to C6 as stated: `n_updates = 5` is accepted by the
setter with no comparison against the population size, and on a population
of two agents the elite block holds `2`, not `5`, agents. -/
theorem C6_counterexample :
    CEM.set_n_updates (.int 5) = .ok 5 ∧
    (CEM.eliteBlock 5 (CEM.sortByFit (CEM.resampled (fun _ => 0) [] []
      (fun _ => []) [] [] [⟨[], 0⟩, ⟨[], 1⟩]))).length = 2 ∧
    (2 : ℕ) ≠ 5 := by
  refine ⟨rfl, ?_, by decide⟩
  with_unfolding_all decide

/-- C6 amended: the CEM accepts any positive integer `n_updates` without
comparing it to the population size (the claimed rejection does not
exist), and the elite block used by the mean and std updates contains
`min n_updates (population size)` agents, the Python slice truncating
silently. -/
theorem C6_amended_elite_truncation (n : ℤ) (hn : 0 < n) (f : Position → ℚ)
    (lb ub : List ℚ) (drawss : ℕ → Position) (mean std : List ℚ)
    (agents : List Agent) :
    CEM.set_n_updates (.int n) = .ok n ∧
    (CEM.eliteBlock n.toNat (CEM.sortByFit
      (CEM.resampled f lb ub drawss mean std agents))).length =
      min n.toNat agents.length := by
  constructor
  · have hle : ¬ n ≤ 0 := not_le.mpr hn
    simp [CEM.set_n_updates, hle]
  · unfold CEM.eliteBlock
    rw [List.length_take, CEM.sortByFit, List.length_insertionSort,
      CEM.resampled_length]

/-- Witness for C6 amended at a concrete input: `n_updates = 5` on a
population of two agents leaves an elite block of `min 5 2` agents. -/
theorem C6_amended_elite_truncation_witness :
    CEM.set_n_updates (.int 5) = .ok 5 ∧
    (CEM.eliteBlock (5 : ℤ).toNat (CEM.sortByFit (CEM.resampled (fun _ => 0)
      [] [] (fun _ => []) [] [] [⟨[], 3⟩, ⟨[], 4⟩]))).length =
      min (5 : ℤ).toNat 2 :=
  C6_amended_elite_truncation 5 (by decide) (fun _ => 0) [] [] (fun _ => [])
    [] [] [⟨[], 3⟩, ⟨[], 4⟩]

/-- Counterexample to C8 as stated: the CEM update reorders the
population. On two identical agents whose draws give fitness `2` to the
first and `1` to the second, the population after the update is the
fitness-sorted list, which differs from the resampled population at every
index. -/
theorem C8_counterexample :
    CEM.resampled (fun p => (p.map List.sum).sum) [-10] [10]
        (fun i => [[2 - (i : ℚ)]]) [0] [1] [⟨[[0]], 0⟩, ⟨[[0]], 0⟩] =
      [⟨[[2]], 2⟩, ⟨[[1]], 1⟩] ∧
    (CEM.update (fun p => (p.map List.sum).sum) [-10] [10]
        (fun i => [[2 - (i : ℚ)]]) 1 0 id
        [⟨[[0]], 0⟩, ⟨[[0]], 0⟩] [0] [1]).1 = [⟨[[1]], 1⟩, ⟨[[2]], 2⟩] ∧
    (CEM.update (fun p => (p.map List.sum).sum) [-10] [10]
        (fun i => [[2 - (i : ℚ)]]) 1 0 id
        [⟨[[0]], 0⟩, ⟨[[0]], 0⟩] [0] [1]).1 ≠
      CEM.resampled (fun p => (p.map List.sum).sum) [-10] [10]
        (fun i => [[2 - (i : ℚ)]]) [0] [1] [⟨[[0]], 0⟩, ⟨[[0]], 0⟩] := by
  with_unfolding_all decide

/-- Per-index characterization of the SA agent loop: when it succeeds, the
output has the population's length and the agent at each index is the
step of the agent that was at that same index. -/
theorem SA.updateAgents_index (expf : ℚ → ℚ) (f : Position → ℚ)
    (lb ub : List ℚ) (T : ℚ) (noise : ℕ → Position) (r1 : ℕ → ℚ) :
    ∀ (agents : List Agent) (i : ℕ) (l : List Agent),
      SA.updateAgents expf f lb ub T noise r1 agents i = some l →
      l.length = agents.length ∧
      ∀ (d : Agent) (j : ℕ), j < agents.length →
        SA.stepAgent expf f lb ub T (noise (i + j)) (r1 (i + j))
          (agents.getD j d) = some (l.getD j d) := by
  intro agents
  induction agents with
  | nil =>
      intro i l h
      simp only [SA.updateAgents, Option.some.injEq] at h
      subst h
      exact ⟨rfl, fun d j hj => absurd hj (Nat.not_lt_zero j)⟩
  | cons a rest ih =>
      intro i l h
      cases ha : SA.stepAgent expf f lb ub T (noise i) (r1 i) a with
      | none => rw [SA.updateAgents, ha] at h; simp at h
      | some a2 =>
          cases hr : SA.updateAgents expf f lb ub T noise r1 rest (i + 1) with
          | none => rw [SA.updateAgents, ha, hr] at h; simp at h
          | some rest2 =>
              have hl : a2 :: rest2 = l := by
                rw [SA.updateAgents, ha, hr] at h
                simpa using h
              obtain ⟨hlen, hidx⟩ := ih (i + 1) rest2 hr
              subst hl
              refine ⟨by simp [hlen], ?_⟩
              intro d j hj
              cases j with
              | zero => simpa using ha
              | succ j =>
                  have hstep := hidx d j (Nat.lt_of_succ_lt_succ hj)
                  have e : i + 1 + j = i + (j + 1) := by omega
                  rw [e] at hstep
                  simpa using hstep

/-- C8 amended: the SA update preserves the population order (the agent at
each index of the output is the step of the agent at the same index of the
input), but the CEM update does not: it leaves the population as the
ascending-by-fitness stable sort of the resampled agents, a sorted
permutation whose order can differ from the input order. -/
theorem C8_amended_order (expf : ℚ → ℚ) (f g : Position → ℚ)
    (lb ub lb2 ub2 : List ℚ) (T : ℚ) (noise : ℕ → Position) (r1 : ℕ → ℚ)
    (agents agents2 : List Agent) (l : List Agent) (drawss : ℕ → Position)
    (nUpdates : ℕ) (alpha : ℚ) (sqrtf : ℚ → ℚ) (mean std : List ℚ)
    (h : SA.updateAgents expf f lb ub T noise r1 agents 0 = some l) :
    (l.length = agents.length ∧
      ∀ (d : Agent) (j : ℕ), j < agents.length →
        SA.stepAgent expf f lb ub T (noise j) (r1 j) (agents.getD j d) =
          some (l.getD j d)) ∧
    ((CEM.update g lb2 ub2 drawss nUpdates alpha sqrtf agents2 mean std).1.Perm
        (CEM.resampled g lb2 ub2 drawss mean std agents2) ∧
      List.Sorted (fun x y : Agent => x.fit ≤ y.fit)
        (CEM.update g lb2 ub2 drawss nUpdates alpha sqrtf agents2 mean std).1) := by
  obtain ⟨hlen, hidx⟩ := SA.updateAgents_index expf f lb ub T noise r1 agents 0 l h
  refine ⟨⟨hlen, fun d j hj => by simpa using hidx d j hj⟩, ?_, ?_⟩
  · exact List.perm_insertionSort _ _
  · haveI : IsTotal Agent (fun x y => x.fit ≤ y.fit) :=
      ⟨fun a b => le_total a.fit b.fit⟩
    haveI : IsTrans Agent (fun x y => x.fit ≤ y.fit) :=
      ⟨fun a b c hab hbc => le_trans hab hbc⟩
    exact List.sorted_insertionSort _ _

/-- Witness for C8 amended at a concrete input: a one-agent SA population
whose rejected step keeps the index-0 agent, and a one-agent CEM
population whose updated order is a permutation of the resampled order. -/
theorem C8_amended_order_witness :
    SA.stepAgent (fun _ => 0) (fun _ => 11) [] [] 1 [] 4
        (([⟨[], 9⟩] : List Agent).getD 0 ⟨[], 0⟩) =
      some (([⟨[], 9⟩] : List Agent).getD 0 ⟨[], 0⟩) ∧
    (CEM.update (fun _ => 0) [] [] (fun _ => []) 1 0 id [⟨[], 8⟩] [] []).1.Perm
      (CEM.resampled (fun _ => 0) [] [] (fun _ => []) [] [] [⟨[], 8⟩]) := by
  have h := C8_amended_order (fun _ => 0) (fun _ => 11) (fun _ => 0) [] [] [] []
    1 (fun _ => []) (fun _ => 4) [⟨[], 9⟩] [⟨[], 8⟩] [⟨[], 9⟩] (fun _ => [])
    1 0 id [] [] (by with_unfolding_all decide)
  exact ⟨h.1.2 ⟨[], 0⟩ 0 (by decide), h.2.1⟩

end Opytimizer
